import Mathlib

set_option maxRecDepth 4000

/-!
Shallow embedding of the core of the iObeya-Logs-Analyzer repository
(src/log_processing.py, src/search_engine.py, src/app_logic.py,
src/archive_selection_dialog.py) together with theorems settling the
frozen claims about its specification.

Conventions used throughout:
* Python strings are Lean `String`s; files are lists of lines, each line
  carrying its trailing newline character exactly as Python file iteration
  yields it.
* `datetime.strptime` with the configured datetime format is modelled by an
  abstract parameter `parseDt : String → Option Nat`: `some t` is a parsed
  timestamp on a totally ordered time axis (`Nat`), `none` is `ValueError`.
  The code stores `datetime.min` as the sentinel for a failed parse and the
  sort key maps that sentinel (by re-parsing the raw string with the same
  format, which fails again) to `datetime.max`; the `Option` model captures
  exactly that net behaviour.
* Python's `list.sort` is a stable sort by key; a stable sort by a total
  preorder is unique, so it is modelled by `List.insertionSort`, the
  canonical stable sort (which, unlike `List.mergeSort`, also evaluates
  inside the kernel).
-/

/-- The whitespace class of Python's `\s` regex escape and of `str.split()` /
`str.strip()` for ASCII input: space, tab, newline, carriage return,
vertical tab, form feed. -/
def pyWhitespace (c : Char) : Bool :=
  c = ' ' || c = '\t' || c = '\n' || c = '\r' || c = '\x0b' || c = '\x0c'

/-- Python `str.strip()`: remove leading and trailing whitespace. -/
def pyStrip (s : String) : String :=
  ⟨((s.data.dropWhile pyWhitespace).reverse.dropWhile pyWhitespace).reverse⟩

/-- Helper for `pySplitWs`: split a character list into maximal
non-whitespace runs, accumulating the current run in reverse. -/
def splitWsAux : List Char → List Char → List (List Char)
  | [], acc => if acc.isEmpty then [] else [acc.reverse]
  | c :: cs, acc =>
    if pyWhitespace c then
      if acc.isEmpty then splitWsAux cs [] else acc.reverse :: splitWsAux cs []
    else splitWsAux cs (c :: acc)

/-- Python `str.split()` with no argument: split on whitespace runs and
drop empty pieces. -/
def pySplitWs (s : String) : List String :=
  (splitWsAux s.data []).map (fun cs => ⟨cs⟩)

/-- Python `str.lower()` restricted to the ASCII case mapping. -/
def lowerChars (s : String) : List Char :=
  s.data.map Char.toLower

/-- The timestamp shape `\d{4}-\d{2}-\d{2} \d{2}:\d{2}:\d{2}` as a check on a
list of exactly 19 characters (`log_processing.py` lines 169 and
`app_logic.py` line 525 use this same prefix). -/
def tsShape : List Char → Bool
  | [y1, y2, y3, y4, s1, m1, m2, s2, d1, d2, sp, h1, h2, c1, n1, n2, c2, e1, e2] =>
    y1.isDigit && y2.isDigit && y3.isDigit && y4.isDigit && s1 = '-' &&
    m1.isDigit && m2.isDigit && s2 = '-' && d1.isDigit && d2.isDigit &&
    sp = ' ' && h1.isDigit && h2.isDigit && c1 = ':' && n1.isDigit &&
    n2.isDigit && c2 = ':' && e1.isDigit && e2.isDigit
  | _ => false

/-- Match the leading `(\d{4}-\d{2}-\d{2} \d{2}:\d{2}:\d{2})` group of the
entry pattern: return the 19 matched characters and the rest of the input. -/
def matchTsStart (cs : List Char) : Option (List Char × List Char) :=
  if 19 ≤ cs.length && tsShape (cs.take 19) then some (cs.take 19, cs.drop 19)
  else none

/-- Match `\s+`: require at least one whitespace character, then consume the
maximal whitespace run (greedy; maximal munch is exact here because in the
entry pattern every `\s+` is followed by a non-whitespace literal or class). -/
def matchWs1 : List Char → Option (List Char)
  | [] => none
  | c :: cs => if pyWhitespace c then some (cs.dropWhile pyWhitespace) else none

/-- Match the `(INFO|WARN|ERROR|DEBUG)` alternation as a literal prefix.  The
four alternatives start with distinct characters and none is a prefix of
another, so the regex engine's left-to-right attempt order is irrelevant. -/
def matchSeverity : List Char → Option (String × List Char)
  | 'I' :: 'N' :: 'F' :: 'O' :: rest => some ("INFO", rest)
  | 'W' :: 'A' :: 'R' :: 'N' :: rest => some ("WARN", rest)
  | 'E' :: 'R' :: 'R' :: 'O' :: 'R' :: rest => some ("ERROR", rest)
  | 'D' :: 'E' :: 'B' :: 'U' :: 'G' :: rest => some ("DEBUG", rest)
  | _ => none

/-- Does the remaining input start with a whitespace character? -/
def headIsWs : List Char → Bool
  | [] => false
  | c :: _ => pyWhitespace c

/-- Match `(.*?)\]\s+` after the opening bracket: the non-greedy group closes
at the first `]` that is immediately followed by a whitespace character (so
that the subsequent `\s+` can match; the trailing `(.*)` never fails).  A `]`
not followed by whitespace is consumed by `.`; `.` cannot consume a newline,
so a newline before a viable `]` makes the whole match fail.  Returns the
category characters and the input remaining after the closing `]` (a `]` at
the very end of input fails: it cannot close, because `\s+` needs a
character, and after `.` consumes it nothing remains). -/
def findCatSplit : List Char → Option (List Char × List Char)
  | [] => none
  | c :: rest =>
    if c = ']' && headIsWs rest then some ([], rest)
    else if c = '\n' then none
    else
      match findCatSplit rest with
      | some (cat, tl) => some (c :: cat, tl)
      | none => none

/-- Model of `re.match` of the entry pattern of `LogLoaderThread._parse_log_from_iterator`
(`log_processing.py` lines 168-173):

`^(\d{4}-\d{2}-\d{2} \d{2}:\d{2}:\d{2})\s+(INFO|WARN|ERROR|DEBUG)\s+\[(.*?)\]\s+(.*)`

applied to one line (with its trailing newline, if any); returns the four
captured groups `(datetime, level, logger, message)`.  `re.match` only
anchors at the start, so trailing input after the groups is allowed; the
final `(.*)` is greedy and stops at a newline or at the end of input. -/
def matchEntryLine (line : String) : Option (String × String × String × String) :=
  match matchTsStart line.data with
  | none => none
  | some (ts, r1) =>
    match matchWs1 r1 with
    | none => none
    | some r2 =>
      match matchSeverity r2 with
      | none => none
      | some (sev, r3) =>
        match matchWs1 r3 with
        | none => none
        | some r4 =>
          match r4 with
          | '[' :: r5 =>
            match findCatSplit r5 with
            | none => none
            | some (cat, r6) =>
              let msg := (r6.dropWhile pyWhitespace).takeWhile (fun c => c ≠ '\n')
              some (⟨ts⟩, sev, ⟨cat⟩, ⟨msg⟩)
          | _ => none

/-- The metadata-only record built per matched line
(`log_processing.py` lines 203-211). -/
structure LogEntry where
  datetime : String
  datetimeObj : Option Nat
  logLevel : String
  loggerName : String
  sourceFilePath : String
  lineNumber : Nat
  messagePreview : String
deriving DecidableEq, Repr

/-- The signals a `LogLoaderThread` can emit (`log_processing.py` lines 22-31). -/
inductive Signal where
  | statusUpdate (main detail : String)
  | fileProgressConfig (lo hi : Nat)
  | fileProgressUpdate (v : Nat)
  | totalProgressConfig (lo hi : Nat)
  | totalProgressUpdate (v : Nat)
  | messageCountUpdate (cur total : Nat)
  | finishedLoading (entries : List LogEntry) (failed : List (String × String))
  | errorOccurred (msg : String)
deriving DecidableEq, Repr

/-- Python `len(line_text.encode('utf-8', errors='ignore'))`. -/
def utf8Len (s : String) : Nat := s.utf8ByteSize

/-- Python `str.startswith`. -/
def strIsPrefixOf (p s : String) : Bool := p.data.isPrefixOf s.data

/-- The allow-list rejection test of `_parse_log_from_iterator`
(`log_processing.py` lines 191-194): filtering is active and no
allow-listed prefix matches the logger name. -/
def lineRejected (filters : List String) (lgr : String) : Bool :=
  ¬ filters.isEmpty && ¬ filters.any (fun p => strIsPrefixOf p lgr)

/-- Loop body of `_parse_log_from_iterator` (`log_processing.py` lines
180-215): walk the lines carrying the 1-based line number, the running byte
count and the number of messages retained so far; emit `file_progress_update`
every 500 lines and `message_count_update` every 1000 retained messages;
retain a metadata entry for every line matching the entry pattern that passes
the logger-prefix allow-list.  `prevLoaded` is `self.total_messages_loaded`. -/
def parseIterAux (parseDt : String → Option Nat) (filters : List String)
    (src : String) (prevLoaded : Nat) :
    List String → Nat → Nat → Nat → (List Signal × List LogEntry)
  | [], _, _, _ => ([], [])
  | line :: rest, lineNo, bytesRead, total =>
    let ln := lineNo + 1
    let br := bytesRead + utf8Len line
    let progSigs : List Signal :=
      if ln % 500 = 0 then [Signal.fileProgressUpdate br] else []
    match matchEntryLine line with
    | none =>
      let rec1 := parseIterAux parseDt filters src prevLoaded rest ln br total
      (progSigs ++ rec1.1, rec1.2)
    | some (dt, lvl, lgr, msg) =>
      if lineRejected filters lgr then
        let rec1 := parseIterAux parseDt filters src prevLoaded rest ln br total
        (progSigs ++ rec1.1, rec1.2)
      else
        let entry : LogEntry :=
          { datetime := dt, datetimeObj := parseDt dt, logLevel := lvl,
            loggerName := lgr, sourceFilePath := src, lineNumber := ln,
            messagePreview := pyStrip msg }
        let t2 := total + 1
        let cntSigs : List Signal :=
          if t2 % 1000 = 0
          then [Signal.messageCountUpdate t2 (prevLoaded + t2)] else []
        let rec1 := parseIterAux parseDt filters src prevLoaded rest ln br t2
        (progSigs ++ cntSigs ++ rec1.1, entry :: rec1.2)

/-- Count of entries the loop retains (used to form the final
`message_count_update`). -/
def retainedCount (filters : List String) (lines : List String) : Nat :=
  lines.countP (fun line =>
    match matchEntryLine line with
    | none => false
    | some q => !(lineRejected filters q.2.2.1))

/-- Model of `_parse_log_from_iterator` (`log_processing.py` lines 167-219): the loop
followed by the final `file_progress_update(file_size)` and
`message_count_update`.  `should_stop` is modelled as a flag fixed for the
duration of the call; when set, the loop breaks immediately but the two final
signals are still emitted. -/
def parseLogFromIterator (parseDt : String → Option Nat) (filters : List String)
    (shouldStop : Bool) (src : String) (prevLoaded : Nat) (fileSize : Nat)
    (lines : List String) : List Signal × List LogEntry :=
  let r :=
    if shouldStop then (([] : List Signal), ([] : List LogEntry))
    else parseIterAux parseDt filters src prevLoaded lines 0 0 0
  let total := r.2.length
  (r.1 ++ [Signal.fileProgressUpdate fileSize,
           Signal.messageCountUpdate total (prevLoaded + total)], r.2)

/-- The sort key of `LogLoaderThread.run` (`log_processing.py` lines 71-78):
the parsed timestamp when available, otherwise re-parse the raw string with
the same format; an unparseable timestamp sorts to the very end
(`datetime.max`), modelled as `none`.  (The code stores `datetime.min` as the
failed-parse sentinel and the key function re-parses the raw string whenever
it sees that sentinel, with the same format on the same string, so the net
key is exactly: the parse result, or "infinitely late" when parsing fails.) -/
def sortKeyOf (parseDt : String → Option Nat) (e : LogEntry) : Option Nat :=
  match e.datetimeObj with
  | some t => some t
  | none => parseDt e.datetime

/-- Key comparison for the sort: valid timestamps ascending, failed
timestamps ordered after every valid one. -/
def keyLe (parseDt : String → Option Nat) (a b : LogEntry) : Bool :=
  match sortKeyOf parseDt a, sortKeyOf parseDt b with
  | some x, some y => decide (x ≤ y)
  | some _, none => true
  | none, some _ => false
  | none, none => true

/-- Model of `all_log_entries.sort(key=sort_key)` (`log_processing.py` line 80):
Python's `list.sort` is a stable sort by key, hence equal to `mergeSort`
with the key comparison. -/
def sortEntries (parseDt : String → Option Nat) (l : List LogEntry) : List LogEntry :=
  List.insertionSort (fun a b => keyLe parseDt a b = true) l

/-- Python `f"{n:,}"`: decimal digits grouped in threes by commas (helper on
the reversed digit list). -/
def commaAux : List Char → List Char
  | a :: b :: c :: d :: rest => a :: b :: c :: ',' :: commaAux (d :: rest)
  | l => l

/-- Python `f"{n:,}"` for a natural number. -/
def commaFmt (n : Nat) : String :=
  ⟨(commaAux (toString n).data.reverse).reverse⟩

/-- Python `os.path.basename` for POSIX paths: the part after the last `/`. -/
def basename (s : String) : String :=
  ⟨(s.data.reverse.takeWhile (fun c => c ≠ '/')).reverse⟩

/-- Does the string end with the given suffix (Python `str.endswith`)? -/
def strEndsWith (s suffix : String) : Bool :=
  suffix.data.reverse.isPrefixOf s.data.reverse

/-- One member of the zip archive: its name inside the archive and either its
decoded text content (as the lines Python file iteration yields, trailing
newlines included) or the message of the exception raised while extracting /
decompressing / decoding it.  The model assumes UTF-8 content for members
that decode at all, so the size of the extracted temp file is the total
UTF-8 byte length of its lines. -/
structure MemberFile where
  name : String
  content : Except String (List String)

/-- Model of `zf.getinfo(filename)`: find the member with the given name
(`None` models `KeyError`). -/
def lookupMember (members : List MemberFile) (fname : String) : Option MemberFile :=
  members.find? (fun m => m.name = fname)

/-- Model of `_process_single_file` with `is_in_archive=True` (`log_processing.py`
lines 128-165) applied to an extracted member: an indeterminate progress
config for `.gz` decompression, the per-file progress config sized by the
uncompressed byte count, then the parse loop; an exception is wrapped as
`Error processing {basename}: {e}`.  (Failures are modelled as raised before
the per-file progress signals; the encoding-fallback path is not modelled
separately — content is given already decoded.) -/
def processMemberFile (parseDt : String → Option Nat) (filters : List String)
    (shouldStop : Bool) (prevLoaded : Nat) (m : MemberFile) :
    Except String (List Signal × List LogEntry) :=
  match m.content with
  | .error e => .error ("Error processing " ++ basename m.name ++ ": " ++ e)
  | .ok lines =>
    let gzSigs : List Signal :=
      if strEndsWith m.name (".gz") then [Signal.fileProgressConfig 0 0] else []
    let size := (lines.map utf8Len).sum
    let (psigs, es) :=
      parseLogFromIterator parseDt filters shouldStop (basename m.name) prevLoaded size lines
    .ok (gzSigs ++ [Signal.fileProgressConfig 0 size] ++ psigs, es)

/-- The per-member loop of `_process_archive` (`log_processing.py` lines
99-119): `i` is the 0-based loop index, `loaded` is
`self.total_messages_loaded`.  `should_stop` is modelled as a flag fixed for
the call, so the `break` checks at the top and bottom of the loop body
coincide: when set, no member is processed. -/
def archiveLoop (parseDt : String → Option Nat) (filters : List String)
    (shouldStop : Bool) (members : List MemberFile) (total : Nat) :
    List String → Nat → Nat → (List Signal × List LogEntry × List (String × String))
  | [], _, _ => ([], [], [])
  | fname :: rest, i, loaded =>
    if shouldStop then ([], [], [])
    else
      let head : List Signal :=
        [Signal.totalProgressUpdate i,
         Signal.statusUpdate ("File " ++ toString (i + 1) ++ " of " ++ toString total) fname]
      match lookupMember members fname with
      | none =>
        let (s, es, fs) := archiveLoop parseDt filters shouldStop members total rest (i + 1) loaded
        (head ++ s, es, (fname, "File not found in archive.") :: fs)
      | some m =>
        match processMemberFile parseDt filters shouldStop loaded m with
        | .error e =>
          let (s, es, fs) := archiveLoop parseDt filters shouldStop members total rest (i + 1) loaded
          (head ++ s, es, (fname, e) :: fs)
        | .ok (ms, entries) =>
          let (s, es, fs) :=
            archiveLoop parseDt filters shouldStop members total rest (i + 1) (loaded + entries.length)
          (head ++ ms ++ s, entries ++ es, fs)

/-- Model of `_process_archive` (`log_processing.py` lines 88-126).  `openResult`
models `zipfile.ZipFile(...)`: `.error e` is a raised `BadZipFile` /
`FileNotFoundError` with message `e`, in which case a single
`error_occurred` is emitted and `([], [])` is returned; otherwise the member
list is available.  `selected` is `self.selected_files_from_archive`; when it
is empty the non-`__MACOSX/` member names are processed (directory members
are not modelled — `members` holds files only). -/
def processArchive (parseDt : String → Option Nat) (filters : List String)
    (shouldStop : Bool) (selected : List String)
    (openResult : Except String (List MemberFile)) :
    List Signal × List LogEntry × List (String × String) :=
  match openResult with
  | .error e => ([Signal.errorOccurred ("Error opening archive: " ++ e)], [], [])
  | .ok members =>
    let files :=
      if selected.isEmpty then
        (members.filter (fun m => ¬ strIsPrefixOf ("__MACOSX/") m.name)).map (·.name)
      else selected
    let total := files.length
    let (s, es, fs) := archiveLoop parseDt filters shouldStop members total files 0 0
    ([Signal.totalProgressConfig 0 total, Signal.totalProgressUpdate 0] ++ s ++
      [Signal.totalProgressUpdate total], es, fs)

/-- Model of `_process_single_file` with `is_in_archive=False` for the standalone
file-path load (`log_processing.py` lines 128-165): the whole-load progress
config, the file processing, and the `finally` progress update which runs on
the exception path too.  Returns the emitted signals and either the parsed
entries or the wrapped exception message. -/
def processStandalone (parseDt : String → Option Nat) (filters : List String)
    (shouldStop : Bool) (fp : String) (content : Except String (List String)) :
    List Signal × Except String (List LogEntry) :=
  match content with
  | .error e =>
    ([Signal.totalProgressConfig 0 1, Signal.totalProgressUpdate 0,
      Signal.totalProgressUpdate 1],
     .error ("Error processing " ++ basename fp ++ ": " ++ e))
  | .ok lines =>
    let gzSigs : List Signal :=
      if strEndsWith fp (".gz") then [Signal.fileProgressConfig 0 0] else []
    let size := (lines.map utf8Len).sum
    let (psigs, es) := parseLogFromIterator parseDt filters shouldStop fp 0 size lines
    ([Signal.totalProgressConfig 0 1, Signal.totalProgressUpdate 0] ++ gzSigs ++
      [Signal.fileProgressConfig 0 size] ++ psigs ++ [Signal.totalProgressUpdate 1],
     .ok es)

/-- The shared tail of `run` (`log_processing.py` lines 63-84): on
cancellation a `Loading cancelled.` status and no further signal; otherwise
an optional `Finalizing...` status, the stable sort, and the single
`finished_loading`.  (`should_stop` is a fixed flag, so the checks at lines
63 and 82 coincide.) -/
def finishTail (parseDt : String → Option Nat) (shouldStop : Bool)
    (entries : List LogEntry) (failed : List (String × String)) : List Signal :=
  if shouldStop then [Signal.statusUpdate "Loading cancelled." ""]
  else
    (if ¬ entries.isEmpty then
      [Signal.statusUpdate "Finalizing..."
        ("Sorting " ++ commaFmt entries.length ++ " entries")]
     else []) ++
    [Signal.finishedLoading (sortEntries parseDt entries) failed]

/-- The environment a single `LogLoaderThread.run` call observes. -/
structure LoadEnv where
  tempDirOk : Bool
  archivePath : Option String
  filePath : Option String
  selectedFiles : List String
  openResult : Except String (List MemberFile)
  singleFile : Except String (List String)
  shouldStop : Bool

/-- Model of `LogLoaderThread.run` (`log_processing.py` lines 46-86) as the full
ordered list of signals it emits. -/
def runThread (parseDt : String → Option Nat) (filters : List String)
    (env : LoadEnv) : List Signal :=
  if ¬ env.tempDirOk then
    [Signal.errorOccurred
      "Unexpected error during loading: Temporary directory not provided or does not exist."]
  else
    match env.archivePath with
    | some ap =>
      let (s, entries, failed) :=
        processArchive parseDt filters env.shouldStop env.selectedFiles env.openResult
      [Signal.statusUpdate "Processing archive..." (basename ap)] ++ s ++
        finishTail parseDt env.shouldStop entries failed
    | none =>
      match env.filePath with
      | some fp =>
        let (s, r) := processStandalone parseDt filters env.shouldStop fp env.singleFile
        [Signal.statusUpdate "Processing file..." (basename fp)] ++ s ++
          (match r with
           | .error e => [Signal.errorOccurred ("Unexpected error during loading: " ++ e)]
           | .ok entries => finishTail parseDt env.shouldStop entries [])
      | none => [Signal.errorOccurred "No file or archive path specified."]

/-- Terminal signals in the sense of the ordering guarantee: completion,
failure, or the cancellation acknowledgement status. -/
def isTerminal : Signal → Bool
  | Signal.finishedLoading _ _ => true
  | Signal.errorOccurred _ => true
  | Signal.statusUpdate m _ => m = "Loading cancelled."
  | _ => false

/-- FTS5 `unicode61` tokenizer on ASCII content: maximal runs of
alphanumeric characters, case-folded (helper carrying the current run in
reverse). -/
def tokensAux : List Char → List Char → List String
  | [], acc => if acc.isEmpty then [] else [⟨acc.reverse⟩]
  | c :: cs, acc =>
    if c.isAlphanum then tokensAux cs (c.toLower :: acc)
    else if acc.isEmpty then tokensAux cs [] else ⟨acc.reverse⟩ :: tokensAux cs []

/-- Tokenize one indexed message. -/
def fts5Tokenize (s : String) : List String := tokensAux s.data []

/-- One term of a parsed FTS5 `MATCH` expression: an exact token or a
prefix query (`token*`). -/
inductive FtsTerm where
  | exact (s : String)
  | prefixT (s : String)
deriving DecidableEq, Repr

/-- Parse one whitespace-delimited piece of the assembled `MATCH` string.
The model covers the alphanumeric fragment of FTS5 bareword syntax: a
nonempty alphanumeric run (case-folded, like the tokenizer), optionally with
a trailing `*` for a prefix query; anything else (for example a bare `*`) is
a syntax error. -/
def parseBareword (piece : String) : Option FtsTerm :=
  let cs := piece.data
  if ¬ cs.isEmpty && cs.all Char.isAlphanum then
    some (FtsTerm.exact ⟨cs.map Char.toLower⟩)
  else
    let body := cs.dropLast
    if cs.getLast? = some '*' && ¬ body.isEmpty && body.all Char.isAlphanum then
      some (FtsTerm.prefixT ⟨body.map Char.toLower⟩)
    else none

/-- Parse a whole `MATCH` expression (implicit AND of its pieces); a piece
that is not a valid bareword, or an empty expression, is an
`sqlite3.OperationalError`. -/
def parseFtsQuery (q : String) : Except String (List FtsTerm) :=
  match (pySplitWs q).mapM parseBareword with
  | none => Except.error "fts5: syntax error"
  | some [] => Except.error "fts5: syntax error"
  | some ts => Except.ok ts

/-- Does a tokenized row satisfy one term? -/
def termMatches (tokens : List String) : FtsTerm → Bool
  | FtsTerm.exact s => tokens.contains s
  | FtsTerm.prefixT s => tokens.any (fun t => strIsPrefixOf s t)

/-- Model of `SELECT rowid FROM logs WHERE logs MATCH ?`: the 1-based rowids (in
ascending order) of the messages whose token list satisfies every term. -/
def ftsMatchRows (msgs : List String) (terms : List FtsTerm) : List Nat :=
  ((List.range msgs.length).filter
    (fun i => terms.all (termMatches (fts5Tokenize (msgs.getD i ""))))).map (· + 1)

/-- The `SearchEngine` state (`search_engine.py` lines 7-9): the in-memory
database connection holds the inserted messages, rowids assigned 1..n by
insertion position. -/
structure SearchEngine where
  conn : Option (List String)
  isIndexed : Bool
deriving DecidableEq, Repr

/-- Model of `SearchEngine.index_data` (`search_engine.py` lines 11-42): an empty
message list only clears `is_indexed` and returns (the previous connection is
neither closed nor replaced); otherwise the old connection is dropped, a
fresh table is built, and all messages are inserted in order (the chunked
insertion and progress callbacks do not affect the resulting table). -/
def SearchEngine.indexData (messages : List String) (e : SearchEngine) : SearchEngine :=
  if messages.isEmpty then { e with isIndexed := false }
  else { conn := some messages, isIndexed := true }

/-- Model of `cursor.execute(...)` + `fetchall` for the assembled query: a syntax
error is an `sqlite3.OperationalError`.  (`search` only reaches this with
`is_indexed` set, in which state the connection is populated; `getD []`
covers the unreachable missing-connection case.) -/
def ftsExec (e : SearchEngine) (q : String) : Except String (List Nat) :=
  match parseFtsQuery q with
  | Except.error err => Except.error err
  | Except.ok terms => Except.ok (ftsMatchRows (e.conn.getD []) terms)

/-- The `MATCH` string `search` assembles: whitespace-split terms, a `*`
appended to the last, joined by single spaces (`search_engine.py` lines
59-64). -/
def assembleFts (terms : List String) : String :=
  String.intercalate (" ") (terms.dropLast ++ [(terms.getLastD ("")) ++ "*"])

/-- Model of `SearchEngine.search` (`search_engine.py` lines 44-74), returning the
0-based matching indices (Python returns them as a set; the model returns
the ascending list of `rowid - 1`).  Every failure path degrades to the
empty result: unbuilt index, empty query, whitespace-only query, or an
`OperationalError` from the assembled `MATCH` expression. -/
def SearchEngine.search (e : SearchEngine) (query : String) : List Nat :=
  if ¬ e.isIndexed || query = ("") then []
  else
    match pySplitWs query with
    | [] => []
    | t :: ts =>
      match ftsExec e (assembleFts (t :: ts)) with
      | Except.ok rows => rows.map (fun r => r - 1)
      | Except.error _ => []

/-- Case-insensitive substring test: Python `pat.lower() in hay.lower()`
(the `regex=False, case=False` behaviour of `Series.str.contains`). -/
def subListAt : List Char → List Char → Bool
  | needle, [] => needle.isEmpty
  | needle, c :: rest => needle.isPrefixOf (c :: rest) || subListAt needle rest

/-- Model of `current_df['message_preview'].str.contains(text, case=False, regex=False)`
for one cell. -/
def containsCI (hay pat : String) : Bool :=
  subListAt (lowerChars pat) (lowerChars hay)

/-- The filter state read by `AppLogic._apply_filters_and_update_views`
(`app_logic.py` lines 413-469): the global search query and engine, the
per-level check states (a dict, so keys are distinct), the timeline window,
the checked category items of the message-types tree, and the main search
box text. -/
structure FilterState where
  globalSearchQuery : String
  engine : SearchEngine
  selectedLogLevels : List (String × Bool)
  timelineFilterActive : Bool
  timelineStart : Option Nat
  timelineEnd : Option Nat
  checkedTypes : List String
  currentSearchText : String

/-- The value of the `datetime_obj` cell: the code stores `datetime.min` as
the failed-parse sentinel, the minimum of the time axis (here `0`). -/
def dtVal (e : LogEntry) : Nat := e.datetimeObj.getD 0

/-- Stage 1, global full-text search (`app_logic.py` lines 431-434). -/
def stage1 (fs : FilterState) (rows : List (Nat × LogEntry)) : List (Nat × LogEntry) :=
  if ¬ (fs.globalSearchQuery = ("")) && fs.engine.isIndexed then
    rows.filter (fun r => (fs.engine.search fs.globalSearchQuery).contains r.1)
  else rows

/-- Stage 2, log level (`app_logic.py` lines 436-439): a no-op when every
level is selected. -/
def stage2 (fs : FilterState) (rows : List (Nat × LogEntry)) : List (Nat × LogEntry) :=
  let active := (fs.selectedLogLevels.filter (fun p => p.2)).map (fun p => p.1)
  if active.length < fs.selectedLogLevels.length then
    rows.filter (fun r => active.contains r.2.logLevel)
  else rows

/-- Stage 3, timeline window (`app_logic.py` lines 441-446): half-open
`[start, end)`. -/
def stage3 (fs : FilterState) (rows : List (Nat × LogEntry)) : List (Nat × LogEntry) :=
  if fs.timelineFilterActive && fs.timelineStart.isSome && fs.timelineEnd.isSome then
    rows.filter (fun r =>
      fs.timelineStart.getD 0 ≤ dtVal r.2 && dtVal r.2 < fs.timelineEnd.getD 0)
  else rows

/-- Stage 4, checked message types (`app_logic.py` lines 453-464): a no-op
when no item is checked. -/
def stage4 (fs : FilterState) (rows : List (Nat × LogEntry)) : List (Nat × LogEntry) :=
  if ¬ fs.checkedTypes.isEmpty then
    rows.filter (fun r => fs.checkedTypes.contains r.2.loggerName)
  else rows

/-- Stage 5, main search box substring on the preview (`app_logic.py` lines
466-469). -/
def stage5 (fs : FilterState) (rows : List (Nat × LogEntry)) : List (Nat × LogEntry) :=
  if ¬ (fs.currentSearchText = ("")) then
    rows.filter (fun r => containsCI r.2.messagePreview fs.currentSearchText)
  else rows

/-- The full five-stage pipeline of `_apply_filters_and_update_views`. -/
def applyFilters (fs : FilterState) (rows : List (Nat × LogEntry)) : List (Nat × LogEntry) :=
  stage5 fs (stage4 fs (stage3 fs (stage2 fs (stage1 fs rows))))

/-- The distinct values of a list in order of first occurrence (the key
order of the pandas object hash table that backs `Series.value_counts`). -/
def firstOccKeys (xs : List String) : List String :=
  xs.foldl (fun acc x => if acc.contains x then acc else acc ++ [x]) []

/-- The `(value, count)` pairs underlying `Series.value_counts()`, in
first-occurrence order, before the frequency sort. -/
def valueCounts (xs : List String) : List (String × Nat) :=
  (firstOccKeys xs).map (fun k => (k, xs.count k))

/-- Comparison for the descending frequency sort of `value_counts`. -/
def countDescLe (a b : String × Nat) : Bool := decide (b.2 ≤ a.2)

/-- Model of `Series.value_counts()`: counts sorted by frequency descending; the
sort is stable, so values with equal counts stay in first-occurrence order.
`nlargest(n, keep='first')` on this series then returns its first `n` rows
(ties at the boundary are kept in order of appearance). -/
def valueCountsSorted (xs : List String) : List (String × Nat) :=
  List.insertionSort (fun a b => countDescLe a b = true) (valueCounts xs)

/-- The severity-restricted category column of
`AppLogic._select_top_n_types_logic` (`app_logic.py` lines 628-629):
`df['logger_name']` for `df` the full store filtered to the currently
selected severities. -/
def severityFilteredCats (entries : List LogEntry)
    (levels : List (String × Bool)) : List String :=
  let sel := (levels.filter (fun p => p.2)).map (fun p => p.1)
  (entries.filter (fun e => sel.contains e.logLevel)).map (fun e => e.loggerName)

/-- Model of `AppLogic._select_top_n_types_logic` (`app_logic.py` lines 623-636):
`df['logger_name'].value_counts().nlargest(top_n).index.to_list()` on the
severity-restricted store.  (When the severity-filtered store is empty the
code returns before touching the tree; the resulting list here is then
empty.) -/
def selectTopNTypes (entries : List LogEntry) (levels : List (String × Bool))
    (n : Nat) : List String :=
  ((valueCountsSorted (severityFilteredCats entries levels)).take n).map (fun p => p.1)

/-- The check-state replacement on the message-types tree (`app_logic.py`
lines 640-647): an item is checked exactly when its logger name is in the
top-N set. -/
def applyTopNChecks (treeItems : List String) (top : List String) :
    List (String × Bool) :=
  treeItems.map (fun t => (t, top.contains t))

/-- The bare entry-start pattern `^\d{4}-\d{2}-\d{2} \d{2}:\d{2}:\d{2}` used
by `_fetch_full_log_entry` to detect the start of the next entry
(`app_logic.py` line 525). -/
def startsNewEntry (line : String) : Bool := (matchTsStart line.data).isSome

/-- The inner loop of `_fetch_full_log_entry` (`app_logic.py` lines
524-527): keep consuming lines until one matches the entry-start pattern. -/
def collectContinuation : List String → List String
  | [] => []
  | l :: ls => if startsNewEntry l then [] else l :: collectContinuation ls

/-- The outer loop of `_fetch_full_log_entry` (`app_logic.py` lines
519-528): walk to the line whose 1-based number is `start_line`, keep it and
its continuation lines. -/
def fetchLines : List String → Nat → List String
  | [], _ => []
  | l :: ls, n => if n = 1 then l :: collectContinuation ls else fetchLines ls (n - 1)

/-- Model of `AppLogic._fetch_full_log_entry` (`app_logic.py` lines 488-531) for an
existing, decodable source file given as its lines (trailing newlines
included, as Python file iteration yields them): the guard on missing
metadata, then `"".join` of the collected lines.  (The `os.path.exists`
guard and the encoding probe are outside the model: the file is given.) -/
def fetchFullLogEntry (srcPath : String) (lines : List String) (startLine : Nat) : String :=
  if srcPath = ("") || startLine = 0 then
    "Source file not found or invalid metadata: " ++ srcPath
  else String.join (fetchLines lines startLine)

/-- A calendar date as Python's `datetime.date` (lexicographically ordered). -/
structure CalDate where
  y : Nat
  m : Nat
  d : Nat
deriving DecidableEq, Repr

/-- Python `datetime.date` comparison (`≤`), lexicographic. -/
def dateLe (a b : CalDate) : Bool :=
  a.y < b.y || (a.y = b.y && (a.m < b.m || (a.m = b.m && a.d ≤ b.d)))

/-- Python `datetime.date` comparison (`<`), lexicographic. -/
def dateLt (a b : CalDate) : Bool :=
  a.y < b.y || (a.y = b.y && (a.m < b.m || (a.m = b.m && a.d < b.d)))

/-- Gregorian leap year, as `datetime` implements it. -/
def isLeap (y : Nat) : Bool := y % 4 = 0 && (y % 100 ≠ 0 || y % 400 = 0)

/-- Days in a month of the proleptic Gregorian calendar. -/
def daysInMonth (y m : Nat) : Nat :=
  if m = 2 then (if isLeap y then 29 else 28)
  else if m = 4 || m = 6 || m = 9 || m = 11 then 30
  else 31

/-- Python `date + timedelta(days=1)`. -/
def succDate (dt : CalDate) : CalDate :=
  if dt.d < daysInMonth dt.y dt.m then ⟨dt.y, dt.m, dt.d + 1⟩
  else if dt.m < 12 then ⟨dt.y, dt.m + 1, 1⟩
  else ⟨dt.y + 1, 1, 1⟩

/-- Match the `(app|error)-` start of the dated-member pattern
(`archive_selection_dialog.py` line 197).  No string can start with both
alternatives, so attempt order is irrelevant. -/
def matchLogType : List Char → Option (String × List Char)
  | 'a' :: 'p' :: 'p' :: '-' :: rest => some ("app", rest)
  | 'e' :: 'r' :: 'r' :: 'o' :: 'r' :: '-' :: rest => some ("error", rest)
  | _ => none

/-- Match the `(\d{4}-\d{2}-\d{2})` date group: ten characters in the shape
`dddd-dd-dd`. -/
def matchDatePart : List Char → Option (List Char × List Char)
  | y1 :: y2 :: y3 :: y4 :: h1 :: m1 :: m2 :: h2 :: d1 :: d2 :: rest =>
    if y1.isDigit && y2.isDigit && y3.isDigit && y4.isDigit && h1 = '-' &&
       m1.isDigit && m2.isDigit && h2 = '-' && d1.isDigit && d2.isDigit then
      some ([y1, y2, y3, y4, h1, m1, m2, h2, d1, d2], rest)
    else none
  | _ => none

/-- Require the literal `.log`. -/
def requireDotLog : List Char → Option (List Char)
  | '.' :: 'l' :: 'o' :: 'g' :: rest => some rest
  | _ => none

/-- Match the `(?:-\d+)?\.log` tail: if a `-` followed by a digit is
present, the greedy `\d+` consumes the whole digit run and `.log` must
follow it (backtracking to a shorter run always lands on a digit, never on
`.`, and skipping the optional group lands on `-`, never on `.`, so no other
split can succeed); otherwise `.log` must follow directly.  The trailing
`(\.gz)?` and anything after it are unconstrained because `re.match` only
anchors at the start. -/
def matchDashNumDotLog (cs : List Char) : Option (List Char) :=
  match cs with
  | '-' :: c :: rest =>
    if c.isDigit then requireDotLog ((c :: rest).dropWhile Char.isDigit)
    else requireDotLog cs
  | _ => requireDotLog cs

/-- Model of `re.match` of the dated-member pattern
`(app|error)-(\d{4}-\d{2}-\d{2})(?:-\d+)?\.log(\.gz)?` on a basename:
returns the log type and the ten date characters. -/
def parseDatedMember (base : String) : Option (String × List Char) :=
  (matchLogType base.data).bind fun p =>
    (matchDatePart p.2).bind fun q =>
      (matchDashNumDotLog q.2).map fun _ => (p.1, q.1)

/-- Digits to a number (the pieces are all-digit by construction). -/
def digitsToNat (cs : List Char) : Nat :=
  cs.foldl (fun a c => a * 10 + (c.toNat - 48)) 0

/-- Model of `datetime.strptime(date_str, '%Y-%m-%d').date()` on the ten matched
characters: validates year ≥ 1 (a four-digit year is ≤ 9999), month and
day; `none` models the `ValueError` the code does not catch. -/
def strpDate (ds : List Char) : Option CalDate :=
  match ds with
  | [y1, y2, y3, y4, _, m1, m2, _, d1, d2] =>
    let y := digitsToNat [y1, y2, y3, y4]
    let m := digitsToNat [m1, m2]
    let d := digitsToNat [d1, d2]
    if 1 ≤ y && 1 ≤ m && m ≤ 12 && 1 ≤ d && d ≤ daysInMonth y m then
      some ⟨y, m, d⟩
    else none
  | _ => none

/-- One file entry collected by `populate_file_list`. -/
structure FileItem where
  name : String
  ftype : String
  date : CalDate
deriving DecidableEq, Repr

/-- The loop state of `populate_file_list` (`archive_selection_dialog.py`
lines 196-218): the dated items in member order, the `undated_files` dict
(keys in first-insertion order, value replaced on re-insertion, keyed by
basename: stored as `(key, member name, log type)`), and the running
maximum date. -/
structure ScanState where
  items : List FileItem
  undated : List (String × String × String)
  maxDate : Option CalDate

/-- The four undated basenames recognized at line 216. -/
def bareNames : List String := ["app.log", "error.log", "app.log.gz", "error.log.gz"]

/-- Model of `undated_files[filename] = {...}`: Python dict insertion. -/
def dictInsert (d : List (String × String × String)) (key : String)
    (nm ty : String) : List (String × String × String) :=
  if d.any (fun e => e.1 = key) then
    d.map (fun e => if e.1 = key then (key, nm, ty) else e)
  else d ++ [(key, nm, ty)]

/-- The body of the member loop of `populate_file_list`
(`archive_selection_dialog.py` lines 203-218); `Except.error` models the
uncaught `ValueError` a dated member with an invalid calendar date raises. -/
def scanMember (st : ScanState) (memberName : String) : Except String ScanState :=
  if strIsPrefixOf ("__MACOSX/") memberName then Except.ok st
  else
    let base := basename memberName
    match parseDatedMember base with
    | some (ty, ds) =>
      match strpDate ds with
      | none => Except.error "ValueError: day is out of range for month"
      | some dt =>
        Except.ok
          { items := st.items ++ [⟨memberName, ty, dt⟩],
            undated := st.undated,
            maxDate :=
              match st.maxDate with
              | none => some dt
              | some mx => if dateLt mx dt then some dt else some mx }
    | none =>
      if bareNames.contains base then
        let ty := if subListAt ("app".data) base.data then "app" else "error"
        Except.ok { st with undated := dictInsert st.undated base memberName ty }
      else Except.ok st

/-- The member scan of `populate_file_list` over the archive's file members
(directory members are not modelled; they are skipped by the code). -/
def scanMembers (members : List String) : Except String ScanState :=
  members.foldlM scanMember ⟨[], [], none⟩

/-- Sort key of `self.file_items.sort(key=lambda x: x['date'])`. -/
def fileItemLe (a b : FileItem) : Bool := dateLe a.date b.date

/-- Model of `populate_file_list` (`archive_selection_dialog.py` lines 196-238) up to
the computation of the sorted `file_items` list: after the scan, when a
maximum date exists and undated members were seen, each undated member is
bucketed to the day after the maximum date and appended; the result is
stable-sorted by date. -/
def populateFileItems (members : List String) : Except String (List FileItem) :=
  (scanMembers members).map fun st =>
    let items := st.items ++
      (match st.maxDate with
       | some mx =>
         if st.undated.isEmpty then []
         else st.undated.map (fun u => ⟨u.2.1, u.2.2, succDate mx⟩)
       | none => [])
    List.insertionSort (fun a b => fileItemLe a b = true) items

/-- An INFO entry of a given category (concrete store material for the
top-N claims). -/
def mkTypeEntry (cat : String) : LogEntry :=
  { datetime := "2024-01-01 10:00:00", datetimeObj := some 0, logLevel := "INFO",
    loggerName := cat, sourceFilePath := "app.log", lineNumber := 1,
    messagePreview := "m" }

/-- All four severities checked (the default level dict). -/
def allLevelsOn : List (String × Bool) :=
  [("INFO", true), ("WARN", true), ("ERROR", true), ("DEBUG", true)]

/-- A store with category counts A:50, B:30, C:30, D:1 in which every `C`
entry is ingested before every `B` entry. -/
def tieStoreCB : List LogEntry :=
  List.replicate 50 (mkTypeEntry "A") ++ List.replicate 30 (mkTypeEntry "C") ++
    List.replicate 30 (mkTypeEntry "B") ++ [mkTypeEntry "D"]

/-- A store with category counts A:50, B:30, C:30, D:1 in which every `B`
entry is ingested before every `C` entry. -/
def tieStoreBC : List LogEntry :=
  List.replicate 50 (mkTypeEntry "A") ++ List.replicate 30 (mkTypeEntry "B") ++
    List.replicate 30 (mkTypeEntry "C") ++ [mkTypeEntry "D"]

/-- A load environment whose archive container cannot be opened
(`zipfile.BadZipFile`). -/
def badZipEnv : LoadEnv :=
  { tempDirOk := true, archivePath := some ("logs.zip"), filePath := none,
    selectedFiles := [], openResult := Except.error "File is not a zip file",
    singleFile := Except.ok [], shouldStop := false }

/-- Format a header line `TIMESTAMP SEVERITY [CATEGORY] REST_OF_LINE`
exactly as the Parser's entry pattern describes it. -/
def formatEntryLine (ts sev cat msg : String) : String :=
  ts ++ " " ++ sev ++ " [" ++ cat ++ "] " ++ msg

/-- A valid timestamp string: exactly the 19-character
`\d{4}-\d{2}-\d{2} \d{2}:\d{2}:\d{2}` shape. -/
def validTsString (ts : String) : Bool :=
  decide (ts.data.length = 19) && tsShape ts.data

/-- Character-level condition on a category under which the non-greedy
group closes exactly at the formatted `]`: the category contains no newline
and no `]` immediately followed by a whitespace character. -/
def catChunkOk : List Char → Bool
  | [] => true
  | c :: rest =>
    decide (c ≠ '\n') && !(decide (c = ']') && headIsWs rest) && catChunkOk rest

/-- Round-trip condition on the category string. -/
def catOk (cat : String) : Bool := catChunkOk cat.data

/-- Round-trip condition on the message: no newline (`.` cannot cross one)
and no leading whitespace (a greedy `\s+` would swallow it). -/
def msgOk (msg : String) : Bool :=
  msg.data.all (fun c => c ≠ '\n') && !headIsWs msg.data

/-- The dates of the dated members of an archive (basename matched by the
dated pattern and validated by `strptime`), in member order. -/
def datedDatesOf (members : List String) : List CalDate :=
  members.filterMap (fun nm =>
    if strIsPrefixOf ("__MACOSX/") nm then none
    else (parseDatedMember (basename nm)).bind (fun p => strpDate p.2))

/-- The running maximum `populate_file_list` computes:
`if max_date is None or log_date > max_date: max_date = log_date`. -/
def maxDateStep (acc : Option CalDate) (d : CalDate) : Option CalDate :=
  match acc with
  | none => some d
  | some mx => if dateLt mx d then some d else some mx

/-- The maximum of a date list under `maxDateStep`. -/
def maxDateOf (ds : List CalDate) : Option CalDate :=
  ds.foldl maxDateStep none

/-- A small three-entry log file with a continuation line (fixture for the
on-demand body re-derivation claims). -/
def sampleLog : List String :=
  ["2024-01-01 10:00:00 ERROR [Auth] failed\n",
   "  trace line 1\n",
   "2024-01-01 10:00:02 WARN [Net] timeout\n"]

/-! ## Theorems settling the claims -/

/-- C10: calling `SearchEngine.index_data` with an empty message list marks
the engine as not indexed and returns without building anything — the
previous connection is neither closed nor replaced — and every subsequent
`search` call returns the empty set (until a non-empty index is built). -/
theorem indexData_empty_not_indexed_conn_kept_search_empty :
    ∀ (e : SearchEngine) (q : String),
      (SearchEngine.indexData [] e).isIndexed = false ∧
      (SearchEngine.indexData [] e).conn = e.conn ∧
      SearchEngine.search (SearchEngine.indexData [] e) q = [] := by
  intro e q
  refine ⟨rfl, rfl, ?_⟩
  simp [SearchEngine.search, SearchEngine.indexData]

/-- C6: indexing `["failed to connect", "retry succeeded", "connection
timeout"]` assigns 0-based row ids by position; `search "conn"` returns
exactly the row-id set `{0, 2}` (prefix match on the final term), and
`search ""` returns the empty set. -/
theorem searchEngine_scenario3 :
    (SearchEngine.indexData ["failed to connect", "retry succeeded", "connection timeout"]
        ⟨none, false⟩).search ("conn") = [0, 2] ∧
    ((SearchEngine.indexData ["failed to connect", "retry succeeded", "connection timeout"]
        ⟨none, false⟩).search ("conn")).toFinset = ({0, 2} : Finset Nat) ∧
    (SearchEngine.indexData ["failed to connect", "retry succeeded", "connection timeout"]
        ⟨none, false⟩).search ("") = [] := by
  decide

/-- C1 (refuted by the code): when the archive container cannot be opened,
`run` emits the single failure signal `error_occurred` but then *continues*
and also emits `finished_loading` with an empty store — two terminal signals
for one load operation, contradicting the single-terminal ordering
guarantee. -/
theorem runThread_archive_open_failure_emits_error_then_finished :
    runThread (fun _ => none) [] badZipEnv =
      [Signal.statusUpdate "Processing archive..." "logs.zip",
       Signal.errorOccurred "Error opening archive: File is not a zip file",
       Signal.finishedLoading [] []] ∧
    (runThread (fun _ => none) [] badZipEnv).countP isTerminal = 2 := by
  decide

/-- C3: every stage of the five-stage filter pipeline narrows the previous
stage's output — the survivors of stage k are a subset of the survivors of
stage k-1, stage 0 being the full store. -/
theorem filterStages_monotonic :
    ∀ (fs : FilterState) (rows : List (Nat × LogEntry)),
      stage1 fs rows ⊆ rows ∧
      stage2 fs (stage1 fs rows) ⊆ stage1 fs rows ∧
      stage3 fs (stage2 fs (stage1 fs rows)) ⊆ stage2 fs (stage1 fs rows) ∧
      stage4 fs (stage3 fs (stage2 fs (stage1 fs rows))) ⊆
        stage3 fs (stage2 fs (stage1 fs rows)) ∧
      applyFilters fs rows ⊆ stage4 fs (stage3 fs (stage2 fs (stage1 fs rows))) := by
  intro fs rows
  refine ⟨?_, ?_, ?_, ?_, ?_⟩
  · unfold stage1; split
    · exact (List.filter_sublist _).subset
    · exact fun a ha => ha
  · unfold stage2
    dsimp only
    split
    · exact (List.filter_sublist _).subset
    · exact fun a ha => ha
  · unfold stage3; split
    · exact (List.filter_sublist _).subset
    · exact fun a ha => ha
  · unfold stage4; split
    · exact (List.filter_sublist _).subset
    · exact fun a ha => ha
  · unfold applyFilters stage5; split
    · exact (List.filter_sublist _).subset
    · exact fun a ha => ha

/-- C2, counterexample: on a store whose category counts are exactly
A:50, B:30, C:30, D:1 but in which the `C` entries are ingested before the
`B` entries, `selectTopN(2)` selects `{A, C}`, not `{A, B}` — the B/C tie is
not broken by category name. -/
theorem selectTopN_tie_counterexample :
    valueCounts (severityFilteredCats tieStoreCB allLevelsOn) =
      [("A", 50), ("C", 30), ("B", 30), ("D", 1)] ∧
    selectTopNTypes tieStoreCB allLevelsOn 2 = ["A", "C"] ∧
    (selectTopNTypes tieStoreCB allLevelsOn 2).toFinset ≠
      ({"A", "B"} : Finset String) := by
  decide

/-- C7, counterexample: the category `"a] b"` and message `"x"` format into
a line the entry pattern parses with category `"a"` and message `"b] x"` —
the fields do not round-trip for every category string. -/
theorem roundtrip_counterexample :
    validTsString "2024-01-01 10:00:00" = true ∧
    matchEntryLine (formatEntryLine "2024-01-01 10:00:00" "INFO" "a] b" "x") =
      some ("2024-01-01 10:00:00", "INFO", "a", "b] x") ∧
    matchEntryLine (formatEntryLine "2024-01-01 10:00:00" "INFO" "a] b" "x") ≠
      some ("2024-01-01 10:00:00", "INFO", "a] b", "x") := by
  decide

/-- C5: for every engine state and query string, `search` returns a plain
result and never propagates an exception: it returns the empty set when the
index is unbuilt, when the query is empty or whitespace-only, and when the
assembled full-text query is syntactically invalid (the
`OperationalError` branch); in every remaining case it returns the mapped
rowids of a successful query execution. -/
theorem search_never_throws :
    ∀ (e : SearchEngine) (q : String),
      (e.isIndexed = false → e.search q = []) ∧
      (q = ("") → e.search q = []) ∧
      (pySplitWs q = [] → e.search q = []) ∧
      (∀ err, ftsExec e (assembleFts (pySplitWs q)) = Except.error err →
        e.search q = []) ∧
      (e.search q = [] ∨
        ∃ rows, ftsExec e (assembleFts (pySplitWs q)) = Except.ok rows ∧
          e.search q = rows.map (fun r => r - 1)) := by
  intro e q
  have main : e.search q = [] ∨
      ∃ rows, ftsExec e (assembleFts (pySplitWs q)) = Except.ok rows ∧
        e.search q = rows.map (fun r => r - 1) := by
    unfold SearchEngine.search
    split
    · exact Or.inl rfl
    · split
      · exact Or.inl rfl
      · rename_i t ts heq
        split
        · rename_i rows hok
          exact Or.inr ⟨rows, by rw [heq]; exact hok, rfl⟩
        · exact Or.inl rfl
  refine ⟨?_, ?_, ?_, ?_, main⟩
  · intro h; simp [SearchEngine.search, h]
  · intro h; simp [SearchEngine.search, h]
  · intro h
    unfold SearchEngine.search
    split
    · rfl
    · simp [h]
  · intro err herr
    rcases main with h | ⟨rows, hok, _⟩
    · exact h
    · rw [herr] at hok
      exact Except.noConfusion hok

/-- Witness for C5: an unbuilt engine returns the empty set, and an indexed
engine returns the empty set on the syntactically invalid query `*`. -/
theorem search_never_throws_witness :
    SearchEngine.search ⟨none, false⟩ ("boom") = [] ∧
    SearchEngine.search ⟨some ["hello world"], true⟩ ("*") = [] := by
  constructor
  · exact (search_never_throws ⟨none, false⟩ ("boom")).1 rfl
  · exact (search_never_throws ⟨some ["hello world"], true⟩ ("*")).2.2.2.1
      "fts5: syntax error" (by rfl)

/-- The key comparison is total (helper for C4). -/
theorem keyLe_total_lemma (pd : String → Option Nat) (a b : LogEntry) :
    keyLe pd a b = true ∨ keyLe pd b a = true := by
  unfold keyLe
  cases ha : sortKeyOf pd a <;> cases hb : sortKeyOf pd b <;> simp
  exact Nat.le_total _ _

/-- The key comparison is transitive (helper for C4). -/
theorem keyLe_trans_lemma (pd : String → Option Nat) (a b c : LogEntry) :
    keyLe pd a b = true → keyLe pd b c = true → keyLe pd a c = true := by
  unfold keyLe
  cases ha : sortKeyOf pd a <;> cases hb : sortKeyOf pd b <;>
    cases hc : sortKeyOf pd c <;> simp
  omega

/-- The parse loop retains exactly the pattern-matching, allow-listed lines,
whatever the timestamp parser returns (helper for C4). -/
theorem parseIterAux_length (pd : String → Option Nat) (filters : List String)
    (src : String) (prev : Nat) :
    ∀ (lines : List String) (ln br t : Nat),
      (parseIterAux pd filters src prev lines ln br t).2.length =
        retainedCount filters lines := by
  intro lines
  induction lines with
  | nil => intro ln br t; rfl
  | cons line rest ih =>
    intro ln br t
    simp only [retainedCount] at ih ⊢
    unfold parseIterAux
    rw [List.countP_cons]
    cases hm : matchEntryLine line with
    | none =>
      simp only [hm]
      simpa using ih (ln + 1) (br + utf8Len line) t
    | some q =>
      obtain ⟨dt, lvl, lgr, msg⟩ := q
      by_cases hf : lineRejected filters lgr = true
      · simp only [hm, hf]
        simpa [hf] using ih (ln + 1) (br + utf8Len line) t
      · rw [Bool.not_eq_true] at hf
        simp only [hm, hf]
        simpa [hf] using ih (ln + 1) (br + utf8Len line) (t + 1)

/-- C4: the completed load's sort is a permutation of the merged entries (no
entry is dropped), it orders them by timestamp ascending with
parse-failed timestamps after every valid one (`keyLe`), it is stable (any
two entries already in key order — in particular any two sharing a key —
keep their relative ingestion order), and the parse loop retains an entry
for every matching allow-listed line regardless of whether its timestamp
parses. -/
theorem sortEntries_stable_sorted_never_drops :
    ∀ (pd : String → Option Nat) (l : List LogEntry),
      (sortEntries pd l).Perm l ∧
      List.Sorted (fun a b => keyLe pd a b = true) (sortEntries pd l) ∧
      (∀ a b : LogEntry, keyLe pd a b = true → [a, b].Sublist l →
        [a, b].Sublist (sortEntries pd l)) ∧
      (∀ (filters : List String) (src : String) (prev size : Nat)
          (lines : List String),
        (parseLogFromIterator pd filters false src prev size lines).2.length =
          retainedCount filters lines) := by
  intro pd l
  haveI : IsTotal LogEntry (fun a b => keyLe pd a b = true) := ⟨keyLe_total_lemma pd⟩
  haveI : IsTrans LogEntry (fun a b => keyLe pd a b = true) :=
    ⟨fun a b c => keyLe_trans_lemma pd a b c⟩
  refine ⟨List.perm_insertionSort _ l, List.sorted_insertionSort _ l, ?_, ?_⟩
  · intro a b hab hsub
    exact List.pair_sublist_insertionSort hab hsub
  · intro filters src prev size lines
    show (parseIterAux pd filters src prev lines 0 0 0).2.length = _
    exact parseIterAux_length pd filters src prev lines 0 0 0

/-- Witness for C4: two entries sharing a timestamp keep their ingestion
order through the sort, and a one-line file whose timestamp fails to parse
still yields one retained entry. -/
theorem sortEntries_stable_sorted_never_drops_witness :
    [mkTypeEntry "A", mkTypeEntry "B"].Sublist
      (sortEntries (fun _ => none) [mkTypeEntry "A", mkTypeEntry "B"]) ∧
    (parseLogFromIterator (fun _ => none) [] false "app.log" 0 41
        ["2024-01-01 10:00:00 ERROR [Auth] failed\n"]).2.length =
      retainedCount [] ["2024-01-01 10:00:00 ERROR [Auth] failed\n"] := by
  constructor
  · exact (sortEntries_stable_sorted_never_drops (fun _ => none)
      [mkTypeEntry "A", mkTypeEntry "B"]).2.2.1 _ _ (by decide) (by decide)
  · exact (sortEntries_stable_sorted_never_drops (fun _ => none) []).2.2.2
      [] "app.log" 0 41 ["2024-01-01 10:00:00 ERROR [Auth] failed\n"]

/-- The continuation loop is `takeWhile` of the non-matching lines
(helper for C8). -/
theorem collectContinuation_eq (ls : List String) :
    collectContinuation ls = ls.takeWhile (fun l => !startsNewEntry l) := by
  induction ls with
  | nil => rfl
  | cons l ls ih =>
    unfold collectContinuation
    cases h : startsNewEntry l
    · simp [List.takeWhile_cons, h, ih]
    · simp [List.takeWhile_cons, h]

/-- The outer loop reaches line `k+1` and collects it together with its
continuation lines (helper for C8). -/
theorem fetchLines_eq :
    ∀ (lines : List String) (k : Nat), k + 1 ≤ lines.length →
      fetchLines lines (k + 1) =
        lines.getD k ("") :: collectContinuation (lines.drop (k + 1)) := by
  intro lines
  induction lines with
  | nil => intro k h; simp at h
  | cons l ls ih =>
    intro k h
    cases k with
    | zero => unfold fetchLines; simp
    | succ m =>
      unfold fetchLines
      simp only [List.getD_cons_succ, List.drop_succ_cons]
      rw [if_neg (by omega)]
      simpa using ih m (by simpa using h)

/-- C8: for a stored entry with a nonempty source path and a 1-based start
line inside the file, re-deriving the full message body returns exactly the
line at `start_line` followed by every subsequent line up to (and excluding)
the first following line matching the entry-start pattern, or up to EOF when
none follows — so continuation lines are included even though they are not
stored. -/
theorem fetchFullLogEntry_spec :
    ∀ (src : String) (lines : List String) (n : Nat),
      src ≠ ("") → 1 ≤ n → n ≤ lines.length →
      fetchFullLogEntry src lines n =
        String.join (lines.getD (n - 1) ("") ::
          (lines.drop n).takeWhile (fun l => !startsNewEntry l)) := by
  intro src lines n hs h1 h2
  obtain ⟨k, rfl⟩ : ∃ k, n = k + 1 := ⟨n - 1, by omega⟩
  unfold fetchFullLogEntry
  rw [if_neg (by simp [hs])]
  rw [fetchLines_eq lines k (by omega), collectContinuation_eq]
  simp

/-- Witness for C8: fetching entry 1 of the sample log returns its header
line plus the continuation line, stopping before the next header. -/
theorem fetchFullLogEntry_spec_witness :
    fetchFullLogEntry "app.log" sampleLog 1 =
      "2024-01-01 10:00:00 ERROR [Auth] failed\n  trace line 1\n" := by
  have h := fetchFullLogEntry_spec "app.log" sampleLog 1
    (by decide) (by decide) (by decide)
  rw [h]
  rfl

/-- Membership in the first-occurrence key list is membership in the data
(helper for C2). -/
theorem firstOccKeys_mem (x : String) :
    ∀ (xs acc : List String),
      (x ∈ xs.foldl (fun acc y => if acc.contains y then acc else acc ++ [y]) acc) ↔
        (x ∈ acc ∨ x ∈ xs) := by
  intro xs
  induction xs with
  | nil => intro acc; simp
  | cons y ys ih =>
    intro acc
    simp only [List.foldl_cons]
    by_cases h : acc.contains y = true
    · rw [if_pos h, ih]
      have hy : y ∈ acc := by simpa using h
      constructor
      · rintro (h1 | h1)
        · exact Or.inl h1
        · exact Or.inr (List.mem_cons_of_mem _ h1)
      · rintro (h1 | h1)
        · exact Or.inl h1
        · rcases List.mem_cons.mp h1 with h2 | h2
          · exact Or.inl (h2 ▸ hy)
          · exact Or.inr h2
    · rw [if_neg h, ih]
      simp only [List.mem_append, List.mem_singleton, List.mem_cons]
      tauto

/-- Every `value_counts` row is `(value, count of that value)`
(helper for C2). -/
theorem valueCounts_count {xs : List String} {p : String × Nat}
    (hp : p ∈ valueCounts xs) : p.2 = xs.count p.1 ∧ p.1 ∈ xs := by
  unfold valueCounts at hp
  obtain ⟨k, hk, rfl⟩ := List.mem_map.mp hp
  refine ⟨rfl, ?_⟩
  exact ((firstOccKeys_mem k xs []).mp hk).resolve_left (by simp)

/-- Every value occurring in the data has a `value_counts` row
(helper for C2). -/
theorem valueCounts_mem_of_mem {xs : List String} {y : String} (hy : y ∈ xs) :
    (y, xs.count y) ∈ valueCounts xs := by
  unfold valueCounts
  exact List.mem_map.mpr ⟨y, (firstOccKeys_mem y xs []).mpr (Or.inr hy), rfl⟩

/-- C2 (amended): `selectTopN` counts categories among the entries passing
the current severity filter and selects the `n` most frequent — every
selected category's count is at least every unselected present category's
count — but ties are broken by order of first appearance in the store, not
by category name: with counts A:50, B:30, C:30, D:1 and n = 2 the selection
is `{A, B}` when B is ingested first and `{A, C}` when C is ingested first;
the check-state replacement checks exactly the selected set. -/
theorem selectTopNTypes_amended :
    (∀ (entries : List LogEntry) (levels : List (String × Bool)) (n : Nat)
        (x y : String),
      x ∈ selectTopNTypes entries levels n →
      y ∈ severityFilteredCats entries levels →
      y ∉ selectTopNTypes entries levels n →
      (severityFilteredCats entries levels).count y ≤
        (severityFilteredCats entries levels).count x) ∧
    selectTopNTypes tieStoreBC allLevelsOn 2 = ["A", "B"] ∧
    selectTopNTypes tieStoreCB allLevelsOn 2 = ["A", "C"] ∧
    (∀ (treeItems top : List String) (t : String),
      (t, true) ∈ applyTopNChecks treeItems top ↔ t ∈ treeItems ∧ t ∈ top) := by
  refine ⟨?_, by decide, by decide, ?_⟩
  · intro entries levels n x y hx hy hyn
    haveI : IsTotal (String × Nat) (fun a b => countDescLe a b = true) :=
      ⟨fun a b => by simp [countDescLe]; omega⟩
    haveI : IsTrans (String × Nat) (fun a b => countDescLe a b = true) :=
      ⟨fun a b c h1 h2 => by simp_all [countDescLe]; omega⟩
    have hsorted : List.Sorted (fun a b => countDescLe a b = true)
        (valueCountsSorted (severityFilteredCats entries levels)) :=
      List.sorted_insertionSort _ _
    have hperm : (valueCountsSorted (severityFilteredCats entries levels)).Perm
        (valueCounts (severityFilteredCats entries levels)) :=
      List.perm_insertionSort _ _
    obtain ⟨p, hpTake, hpx⟩ := List.mem_map.mp hx
    have hyv : (y, (severityFilteredCats entries levels).count y) ∈
        valueCounts (severityFilteredCats entries levels) :=
      valueCounts_mem_of_mem hy
    have hys : (y, (severityFilteredCats entries levels).count y) ∈
        valueCountsSorted (severityFilteredCats entries levels) :=
      hperm.mem_iff.mpr hyv
    rw [← List.take_append_drop n
      (valueCountsSorted (severityFilteredCats entries levels))] at hys
    rcases List.mem_append.mp hys with hin | hin
    · exact absurd (List.mem_map.mpr ⟨_, hin, rfl⟩) hyn
    · have hrel : countDescLe p (y, (severityFilteredCats entries levels).count y)
          = true := by
        have hpw := hsorted
        rw [← List.take_append_drop n
          (valueCountsSorted (severityFilteredCats entries levels))] at hpw
        exact (List.pairwise_append.mp hpw).2.2 p hpTake _ hin
      have hpv : p ∈ valueCounts (severityFilteredCats entries levels) :=
        hperm.mem_iff.mp ((List.take_subset _ _) hpTake)
      have hcount := (valueCounts_count hpv).1
      simp only [countDescLe, decide_eq_true_eq] at hrel
      rw [hpx] at hcount
      omega
  · intro treeItems top t
    unfold applyTopNChecks
    constructor
    · intro h
      obtain ⟨u, hu, he⟩ := List.mem_map.mp h
      have h1 : u = t := congrArg Prod.fst he
      have h2 : top.contains u = true := by
        have := congrArg Prod.snd he
        simpa using this
      subst h1
      exact ⟨hu, by simpa using h2⟩
    · rintro ⟨h1, h2⟩
      exact List.mem_map.mpr ⟨t, h1, by simpa using h2⟩

/-- Witness for C2 (amended): on the C-before-B store, the selected `A` has
a count at least that of the unselected `D`. -/
theorem selectTopNTypes_amended_witness :
    (severityFilteredCats tieStoreCB allLevelsOn).count "D" ≤
      (severityFilteredCats tieStoreCB allLevelsOn).count "A" := by
  exact selectTopNTypes_amended.1 tieStoreCB allLevelsOn 2 "A" "D"
    (by decide) (by decide) (by decide)

/-- A valid 19-character timestamp prefix matches and leaves the rest
(helper for C7). -/
theorem matchTsStart_append {ts : String} (h : validTsString ts = true)
    (r : List Char) : matchTsStart (ts.data ++ r) = some (ts.data, r) := by
  unfold validTsString at h
  simp only [Bool.and_eq_true, decide_eq_true_eq] at h
  obtain ⟨hlen, hshape⟩ := h
  unfold matchTsStart
  rw [← hlen, List.take_left, List.drop_left]
  simp [List.length_append, hshape]

/-- Lemma: `dropWhile` is the identity on a list with a non-whitespace head
(helper for C7). -/
theorem dropWhile_of_head_not {cs : List Char} (h : headIsWs cs = false) :
    cs.dropWhile pyWhitespace = cs := by
  cases cs with
  | nil => rfl
  | cons c rest =>
    simp only [headIsWs] at h
    simp [List.dropWhile_cons, h]

/-- On a well-formed category, the non-greedy group closes exactly at the
formatted closing bracket (helper for C7). -/
theorem findCatSplit_append {tl : List Char} (htl : headIsWs tl = true) :
    ∀ (cat : List Char), catChunkOk cat = true →
      findCatSplit (cat ++ ']' :: tl) = some (cat, tl) := by
  intro cat
  induction cat with
  | nil =>
    intro _
    unfold findCatSplit
    simp [htl]
  | cons c cs ih =>
    intro hok
    unfold catChunkOk at hok
    simp only [Bool.and_eq_true, decide_eq_true_eq, Bool.not_eq_true'] at hok
    obtain ⟨⟨hc1, hc2⟩, hc3⟩ := hok
    unfold findCatSplit
    have hcond : (decide (c = ']') && headIsWs (cs ++ ']' :: tl)) = false := by
      by_cases hc : c = ']'
      · cases cs with
        | nil => simp [headIsWs, pyWhitespace]
        | cons d ds =>
          have hds : pyWhitespace d = false := by
            simpa [hc, headIsWs] using hc2
          simp [headIsWs, hds]
      · simp [hc]
    simp only [List.cons_append, hcond, Bool.false_eq_true, if_false]
    rw [if_neg hc1, ih hc3]

/-- C7 (amended): formatting a valid timestamp, one of the four severities,
a category with no newline and no `]`-followed-by-whitespace, and a message
with no newline and no leading whitespace into the header-line pattern and
parsing it back with the Parser's entry pattern recovers the identical four
fields. -/
theorem matchEntryLine_roundtrip :
    ∀ (ts sev cat msg : String),
      validTsString ts = true →
      sev ∈ (["INFO", "WARN", "ERROR", "DEBUG"] : List String) →
      catOk cat = true →
      msgOk msg = true →
      matchEntryLine (formatEntryLine ts sev cat msg) = some (ts, sev, cat, msg) := by
  intro ts sev cat msg hts hsev hcat hmsg
  have hmsgAll : ∀ c ∈ msg.data, ¬ c = '\n' := by
    unfold msgOk at hmsg
    simp only [Bool.and_eq_true, List.all_eq_true, decide_eq_true_eq] at hmsg
    exact hmsg.1
  have hmsgHead : headIsWs msg.data = false := by
    unfold msgOk at hmsg
    simp only [Bool.and_eq_true, Bool.not_eq_true'] at hmsg
    exact hmsg.2
  have hcat' : catChunkOk cat.data = true := hcat
  have hdata : (formatEntryLine ts sev cat msg).data =
      ts.data ++ (' ' :: (sev.data ++ (' ' :: '[' :: (cat.data ++ (']' :: ' ' :: msg.data))))) := by
    simp [formatEntryLine, String.data_append]
  have hw : pyWhitespace ' ' = true := by decide
  have hI : pyWhitespace 'I' = false := by decide
  have hW : pyWhitespace 'W' = false := by decide
  have hE : pyWhitespace 'E' = false := by decide
  have hD : pyWhitespace 'D' = false := by decide
  have hB : pyWhitespace '[' = false := by decide
  have hinfo : ("INFO" : String).data = ['I', 'N', 'F', 'O'] := rfl
  have hwarn : ("WARN" : String).data = ['W', 'A', 'R', 'N'] := rfl
  have herror : ("ERROR" : String).data = ['E', 'R', 'R', 'O', 'R'] := rfl
  have hdebug : ("DEBUG" : String).data = ['D', 'E', 'B', 'U', 'G'] := rfl
  have hsplit := @findCatSplit_append (' ' :: msg.data)
    (by simp [headIsWs, hw]) cat.data hcat'
  have hdropMsg : List.dropWhile pyWhitespace (' ' :: msg.data) = msg.data := by
    simp [List.dropWhile_cons, hw, dropWhile_of_head_not hmsgHead]
  simp only [List.mem_cons, List.mem_singleton, List.not_mem_nil, or_false] at hsev
  rcases hsev with rfl | rfl | rfl | rfl <;>
    · simp only [matchEntryLine, hdata, matchTsStart_append hts, matchWs1,
        hinfo, hwarn, herror, hdebug, List.cons_append, List.dropWhile_cons,
        hw, hI, hW, hE, hD, hB, if_true, if_false, Bool.false_eq_true,
        matchSeverity, hsplit, hdropMsg, List.nil_append]
      rw [List.takeWhile_eq_self_iff.mpr (by simpa using hmsgAll)]

/-- Date comparison is reflexive (helper for C9). -/
theorem dateLe_refl (a : CalDate) : dateLe a a = true := by
  simp [dateLe]

/-- Date comparison is transitive (helper for C9). -/
theorem dateLe_trans_lemma (a b c : CalDate) :
    dateLe a b = true → dateLe b c = true → dateLe a c = true := by
  simp only [dateLe, Bool.or_eq_true, Bool.and_eq_true, decide_eq_true_eq]
  omega

/-- A strict comparison implies the weak one (helper for C9). -/
theorem dateLe_of_lt {a b : CalDate} (h : dateLt a b = true) : dateLe a b = true := by
  simp only [dateLt, dateLe, Bool.or_eq_true, Bool.and_eq_true, decide_eq_true_eq] at *
  omega

/-- Failing the strict comparison implies the reverse weak one
(helper for C9). -/
theorem dateLe_of_not_lt {a b : CalDate} (h : dateLt a b = false) :
    dateLe b a = true := by
  simp only [dateLt, dateLe, Bool.or_eq_true, Bool.and_eq_true,
    decide_eq_true_eq, Bool.eq_false_iff, ne_eq] at *
  by_contra hc
  apply h
  push_neg at hc
  omega

/-- The running maximum of `populate_file_list` is a maximum: it is one of
the folded dates (or the start value) and bounds them all (helper for C9). -/
theorem maxDateFold_spec :
    ∀ (ds : List CalDate) (acc : Option CalDate) (mx : CalDate),
      ds.foldl maxDateStep acc = some mx →
      (mx ∈ ds ∨ acc = some mx) ∧
      (∀ d ∈ ds, dateLe d mx = true) ∧
      (∀ m0, acc = some m0 → dateLe m0 mx = true) := by
  intro ds
  induction ds with
  | nil =>
    intro acc mx h
    simp only [List.foldl_nil] at h
    refine ⟨Or.inr h, by simp, ?_⟩
    intro m0 hm0
    rw [h] at hm0
    obtain rfl : mx = m0 := Option.some_inj.mp hm0
    exact dateLe_refl mx
  | cons d ds ih =>
    intro acc mx h
    simp only [List.foldl_cons] at h
    obtain ⟨h1, h2, h3⟩ := ih (maxDateStep acc d) mx h
    have hstep : ∃ m1, maxDateStep acc d = some m1 ∧ dateLe d m1 = true ∧
        (∀ m0, acc = some m0 → dateLe m0 m1 = true) ∧
        (m1 = d ∨ acc = some m1) := by
      cases acc with
      | none => exact ⟨d, rfl, dateLe_refl d, by simp, Or.inl rfl⟩
      | some m0 =>
        dsimp only [maxDateStep]
        by_cases hlt : dateLt m0 d = true
        · rw [if_pos hlt]
          refine ⟨d, rfl, dateLe_refl d, ?_, Or.inl rfl⟩
          intro m1 hm1
          obtain rfl : m0 = m1 := Option.some_inj.mp hm1
          exact dateLe_of_lt hlt
        · rw [Bool.not_eq_true] at hlt
          rw [if_neg (by simp [hlt])]
          refine ⟨m0, rfl, dateLe_of_not_lt hlt, ?_, Or.inr rfl⟩
          intro m1 hm1
          obtain rfl : m0 = m1 := Option.some_inj.mp hm1
          exact dateLe_refl m0
    obtain ⟨m1, hm1, hdm1, haccm1, hm1src⟩ := hstep
    refine ⟨?_, ?_, ?_⟩
    · rcases h1 with hm | hm
      · exact Or.inl (List.mem_cons_of_mem _ hm)
      · rw [hm1] at hm
        obtain rfl : m1 = mx := Option.some_inj.mp hm
        rcases hm1src with rfl | hacc
        · exact Or.inl (List.mem_cons_self _ _)
        · exact Or.inr hacc
    · intro e he
      rcases List.mem_cons.mp he with rfl | he2
      · exact dateLe_trans_lemma _ _ _ hdm1 (h3 m1 hm1)
      · exact h2 e he2
    · intro m0 hm0
      exact dateLe_trans_lemma _ _ _ (haccm1 m0 hm0) (h3 m1 hm1)

/-- The member scan folds the running maximum over exactly the dated
members' dates, and every collected (dated) item has a dated basename
(helper for C9). -/
theorem scanMembers_state :
    ∀ (members : List String) (st0 st : ScanState),
      List.foldlM scanMember st0 members = Except.ok st →
      st.maxDate = (datedDatesOf members).foldl maxDateStep st0.maxDate ∧
      (∀ x ∈ st.items, x ∈ st0.items ∨
        (parseDatedMember (basename x.name)).isSome = true) := by
  intro members
  induction members with
  | nil =>
    intro st0 st h
    simp only [List.foldlM_nil] at h
    obtain rfl : st0 = st := Except.ok.inj h
    refine ⟨?_, fun x hx => Or.inl hx⟩
    simp [datedDatesOf]
  | cons nm rest ih =>
    intro st0 st h
    rw [List.foldlM_cons] at h
    cases hs : scanMember st0 nm with
    | error e =>
      rw [hs] at h
      exact absurd h (by simp [Bind.bind, Except.bind])
    | ok st1 =>
      rw [hs] at h
      have h' : List.foldlM scanMember st1 rest = Except.ok st := h
      obtain ⟨hmax, hitems⟩ := ih st1 st h'
      by_cases hmac : strIsPrefixOf ("__MACOSX/") nm = true
      · have hst1 : st0 = st1 := by
          simp only [scanMember, if_pos hmac] at hs
          exact Except.ok.inj hs
        have hdd : datedDatesOf (nm :: rest) = datedDatesOf rest := by
          unfold datedDatesOf
          simp [List.filterMap_cons, hmac]
        refine ⟨by rw [hmax, hdd, hst1], ?_⟩
        intro x hx
        rcases hitems x hx with hx0 | hx0
        · exact Or.inl (hst1 ▸ hx0)
        · exact Or.inr hx0
      · cases hp : parseDatedMember (basename nm) with
        | none =>
          have hst1 : st1.items = st0.items ∧ st1.maxDate = st0.maxDate := by
            simp only [scanMember, if_neg hmac, hp] at hs
            by_cases hb : bareNames.contains (basename nm) = true
            · rw [if_pos hb] at hs
              rw [← Except.ok.inj hs]
              exact ⟨rfl, rfl⟩
            · rw [if_neg hb] at hs
              rw [← Except.ok.inj hs]
              exact ⟨rfl, rfl⟩
          have hdd : datedDatesOf (nm :: rest) = datedDatesOf rest := by
            unfold datedDatesOf
            simp [List.filterMap_cons, hmac, hp]
          refine ⟨by rw [hmax, hdd, hst1.2], ?_⟩
          intro x hx
          rcases hitems x hx with hx0 | hx0
          · exact Or.inl (hst1.1 ▸ hx0)
          · exact Or.inr hx0
        | some p =>
          obtain ⟨ty, ds⟩ := p
          cases hsd : strpDate ds with
          | none =>
            exfalso
            simp only [scanMember, if_neg hmac, hp, hsd] at hs
            exact Except.noConfusion hs
          | some dt =>
            have hst1 : st1 = ScanState.mk (st0.items ++ [⟨nm, ty, dt⟩])
                st0.undated (maxDateStep st0.maxDate dt) := by
              simp only [scanMember, if_neg hmac, hp, hsd] at hs
              exact (Except.ok.inj hs).symm
            have hdd : datedDatesOf (nm :: rest) = dt :: datedDatesOf rest := by
              unfold datedDatesOf
              simp [List.filterMap_cons, hmac, hp, hsd]
            refine ⟨?_, ?_⟩
            · rw [hmax, hdd, List.foldl_cons, hst1]
            · intro x hx
              rcases hitems x hx with hx0 | hx0
              · rw [hst1] at hx0
                simp only [List.mem_append, List.mem_singleton] at hx0
                rcases hx0 with hx1 | rfl
                · exact Or.inl hx1
                · exact Or.inr (by simp [hp])
              · exact Or.inr hx0

/-- No bare member name matches the dated pattern (helper for C9). -/
theorem bareNames_not_dated : ∀ b ∈ bareNames, parseDatedMember b = none := by
  decide

/-- C9: whenever `populate_file_list` succeeds and its output contains an
item with a bare basename (`app.log` / `error.log`, optionally `.gz`), the
archive's dated members have a well-defined most recent date `mx` — the
maximum of all dated-member dates — and the bare item is bucketed to
`succDate mx`, the day after it. -/
theorem populateFileItems_bare_bucketed :
    ∀ (members : List String) (items : List FileItem),
      populateFileItems members = Except.ok items →
      ∀ it ∈ items, basename it.name ∈ bareNames →
      ∃ mx, maxDateOf (datedDatesOf members) = some mx ∧
        mx ∈ datedDatesOf members ∧
        (∀ d ∈ datedDatesOf members, dateLe d mx = true) ∧
        it.date = succDate mx := by
  intro members items hp it hit hbare
  unfold populateFileItems at hp
  cases hs : scanMembers members with
  | error e =>
    rw [hs] at hp
    exact absurd hp (by simp [Except.map])
  | ok st =>
    rw [hs] at hp
    have hitems : items = List.insertionSort (fun a b => fileItemLe a b = true)
        (st.items ++
          (match st.maxDate with
           | some mx =>
             if st.undated.isEmpty then []
             else st.undated.map
               (fun u => (⟨u.2.1, u.2.2, succDate mx⟩ : FileItem))
           | none => [])) := (Except.ok.inj hp).symm
    obtain ⟨hmax, hdated⟩ := scanMembers_state members ⟨[], [], none⟩ st hs
    rw [hitems] at hit
    have hmem := (List.perm_insertionSort _ _).subset hit
    rcases List.mem_append.mp hmem with hin | hin
    · rcases hdated it hin with h0 | h0
      · simp at h0
      · rw [bareNames_not_dated _ hbare] at h0
        simp at h0
    · cases hmx : st.maxDate with
      | none =>
        rw [hmx] at hin
        simp at hin
      | some mx =>
        rw [hmx] at hin
        dsimp only at hin
        by_cases hu : st.undated.isEmpty
        · rw [if_pos hu] at hin
          simp at hin
        · rw [if_neg hu] at hin
          obtain ⟨u, hu2, hue⟩ := List.mem_map.mp hin
          have hdate : it.date = succDate mx := by rw [← hue]
          have hfold : (datedDatesOf members).foldl maxDateStep none = some mx := by
            have := hmax.symm.trans hmx
            simpa using this
          obtain ⟨hmem2, hub, _⟩ := maxDateFold_spec (datedDatesOf members) none mx hfold
          refine ⟨mx, ?_, ?_, hub, hdate⟩
          · unfold maxDateOf
            exact hfold
          · exact hmem2.resolve_right (by simp)

/-- Witness for C9: in the two-dated-member archive with a bare `app.log`,
the bare member is bucketed to 2024-01-03, the day after the most recent
dated member 2024-01-02. -/
theorem populateFileItems_bare_bucketed_witness :
    ∃ mx, maxDateOf (datedDatesOf
        ["app-2024-01-01.log", "app-2024-01-02.log", "app.log"]) = some mx ∧
      mx ∈ datedDatesOf ["app-2024-01-01.log", "app-2024-01-02.log", "app.log"] ∧
      (∀ d ∈ datedDatesOf ["app-2024-01-01.log", "app-2024-01-02.log", "app.log"],
        dateLe d mx = true) ∧
      (⟨"app.log", "app", ⟨2024, 1, 3⟩⟩ : FileItem).date = succDate mx := by
  exact populateFileItems_bare_bucketed
    ["app-2024-01-01.log", "app-2024-01-02.log", "app.log"]
    [⟨"app-2024-01-01.log", "app", ⟨2024, 1, 1⟩⟩,
     ⟨"app-2024-01-02.log", "app", ⟨2024, 1, 2⟩⟩,
     ⟨"app.log", "app", ⟨2024, 1, 3⟩⟩]
    (by rfl) ⟨"app.log", "app", ⟨2024, 1, 3⟩⟩ (by decide) (by decide)

/-- Witness for C7 (amended): a concrete well-formed header line
round-trips to the identical four fields. -/
theorem matchEntryLine_roundtrip_witness :
    matchEntryLine (formatEntryLine "2024-01-01 10:00:00" "WARN" "Net.http" "conn timeout") =
      some ("2024-01-01 10:00:00", "WARN", "Net.http", "conn timeout") := by
  exact matchEntryLine_roundtrip "2024-01-01 10:00:00" "WARN" "Net.http" "conn timeout"
    (by decide) (by decide) (by decide) (by decide)
